import Mathlib

/-!
Verification of the Prior-Art Search & Ranking Engine
(`src/backend/google_patents.py` and the impact-adjustment logic in
`src/backend/main.py`) of the patent-assessment-platform repository.

The embedding is a shallow one:

* Python `str` becomes Lean `String`; all character-class tests
  (`\w`, whitespace, `str.lower`) are modelled on their ASCII behaviour,
  which is the behaviour exercised by every input considered here.
* Python `float` arithmetic on scores becomes exact `ℚ` arithmetic.
* Python `set` iteration order is unspecified; wherever the source
  iterates over a set, the embedding fixes first-occurrence order of the
  underlying scan.  No verified property depends on the chosen order.
* Stateful/async code (`_search_patents`) is modelled by explicit
  parameters: the HTTP layer is an oracle mapping a start offset to a
  reply, and exceptions that the source catches are not representable
  (the model is total, mirroring the source's catch-all handlers).
-/

/- The arithmetic on `Rat` is shipped `@[irreducible]`, which blocks the
evaluation of concrete `ℚ` expressions inside `decide`; restoring ordinary
reducibility for this file lets concrete scores and confidence values
compute. -/
attribute [local semireducible] Rat.add Rat.sub Rat.mul Rat.inv Rat.ofScientific

namespace PatentPlatform

/-! ### Character classes (ASCII model of Python `\w`, `\s`, `str.lower`) -/

/-- ASCII model of the regex class `\w` used throughout `google_patents.py`. -/
def isWordChar (c : Char) : Bool :=
  c.isAlphanum || c = '_'

/-- ASCII model of Python whitespace as used by `str.split()` and `\s`. -/
def isSpaceB (c : Char) : Bool :=
  c = ' ' || c = '\t' || c = '\n' || c = '\r' || c = '\x0b' || c = '\x0c'

/-- ASCII model of `str.lower` on a single character. -/
def charLower (c : Char) : Char :=
  if c.isUpper then Char.ofNat (c.toNat + 32) else c

/-- ASCII model of Python `str.lower`. -/
def strLower (s : String) : String :=
  String.mk (s.data.map charLower)

/-! ### List-of-characters utilities shared by the embedded functions -/

/-- `startsWithL l p`: does `l` start with `p`?  (Python `str.startswith`.) -/
def startsWithL : List Char → List Char → Bool
  | _, [] => true
  | [], _ :: _ => false
  | x :: xs, y :: ys => x = y && startsWithL xs ys

/-- `containsL l p`: does `p` occur as a contiguous run inside `l`?
(Python's `in` operator on strings.) -/
def containsL : List Char → List Char → Bool
  | [], p => p.isEmpty
  | x :: xs, p => startsWithL (x :: xs) p || containsL xs p

/-- Python `needle in hay` on strings. -/
def strContains (hay needle : String) : Bool :=
  containsL hay.data needle.data

/-- Python `hay.endswith needle` via reversed character lists. -/
def strEndsWithB (s suffixStr : String) : Bool :=
  startsWithL s.data.reverse suffixStr.data.reverse

/-- Python `hay.startswith needle`. -/
def strStartsWithB (s p : String) : Bool :=
  startsWithL s.data p.data

/-- Splits a character list on runs of separator characters, dropping empty
pieces — the behaviour of Python's no-argument `str.split()` (with
`sep = isSpaceB`) and of filtering the runs of `re.split` (with
`sep = not-word-char`).  `acc` holds the current run, reversed. -/
def splitRunsAux (sep : Char → Bool) : List Char → List Char → List (List Char)
  | acc, [] => if acc = [] then [] else [acc.reverse]
  | acc, c :: cs =>
    if sep c then
      if acc = [] then splitRunsAux sep [] cs
      else acc.reverse :: splitRunsAux sep [] cs
    else splitRunsAux sep (c :: acc) cs

/-- Python `s.split()` (split on whitespace runs, no empty pieces). -/
def pySplit (s : String) : List String :=
  (splitRunsAux isSpaceB [] s.data).map String.mk

/-- The maximal runs of `\w` characters of `s` — exactly the full matches
that `re.findall` produces for the word-shaped patterns of
`_extract_technical_terms` / `_extract_function_terms`, before the
suffix/verb test is applied. -/
def pyWords (s : String) : List String :=
  (splitRunsAux (fun c => !isWordChar c) [] s.data).map String.mk

/-- Joins character runs with a separator (Python `sep.join`). -/
def joinChars (sep : List Char) : List (List Char) → List Char
  | [] => []
  | [w] => w
  | w :: ws => w ++ sep ++ joinChars sep ws

/-- Python `" ".join ws` on strings. -/
def joinWith (sep : String) (ws : List String) : String :=
  String.mk (joinChars sep.data (ws.map String.data))

/-- Keeps the first occurrence of each string, in order.  Used where the
source materialises a Python `set` whose iteration order is unspecified:
the embedding fixes first-occurrence order. -/
def dedupKeepFirstAux (seen : List String) : List String → List String
  | [] => []
  | x :: xs =>
    if x ∈ seen then dedupKeepFirstAux seen xs
    else x :: dedupKeepFirstAux (x :: seen) xs

/-- First-occurrence deduplication of a list of strings. -/
def dedupKeepFirst (xs : List String) : List String :=
  dedupKeepFirstAux [] xs

/-- Lexicographic comparison of strings by code points (Python `<`). -/
def charListLt : List Char → List Char → Bool
  | _, [] => false
  | [], _ :: _ => true
  | x :: xs, y :: ys => x < y || (x = y && charListLt xs ys)

/-- Python string `<`. -/
def strLtB (a b : String) : Bool :=
  charListLt a.data b.data

/-! ### Stable sorts

Python's `sorted` is a stable sort; any stable sort is extensionally equal
to it, so each use below is an insertion sort that places an element
after every earlier element whose key is not strictly worse. -/

/-- Insert into a length-descending sorted list, after ties
(stability of `sorted(key=len, reverse=True)`). -/
def insertByLenDesc (x : String) : List String → List String
  | [] => [x]
  | y :: ys =>
    if x.length < y.length then y :: insertByLenDesc x ys
    else x :: y :: ys

/-- Stable sort by string length, descending —
Python `sorted(l, key=len, reverse=True)`. -/
def sortByLenDesc : List String → List String
  | [] => []
  | x :: xs => insertByLenDesc x (sortByLenDesc xs)

/-- Insert into a lexicographically ascending sorted list, before ties
(stability of `sorted`). -/
def insertLexAsc (x : String) : List String → List String
  | [] => [x]
  | y :: ys =>
    if strLtB y x then y :: insertLexAsc x ys
    else x :: y :: ys

/-- Stable lexicographic ascending sort — Python `sorted(l)` on strings. -/
def sortLexAsc : List String → List String
  | [] => []
  | x :: xs => insertLexAsc x (sortLexAsc xs)

/-! ### Query Strategy Generator (`_generate_search_queries` and helpers) -/

/-- Stop-words filtered by `_extract_technical_terms`. -/
def commonWords : List String :=
  ["the", "and", "or", "but", "in", "on", "at", "to", "for", "of", "with", "by"]

/-- The suffix alternatives of the three regex patterns of
`_extract_technical_terms`; a word matches one of the patterns
`\b\w*(?:...)\b` exactly when it ends with one of these. -/
def techSuffixes : List String :=
  ["system", "method", "apparatus", "device", "process", "algorithm", "protocol",
   "network", "database", "interface", "module", "engine", "framework",
   "analysis", "processing", "detection", "recognition", "optimization"]

/-- `_extract_technical_terms`: words of the lowered description ending in a
domain suffix, deduplicated (source: a Python set, order unspecified —
first-occurrence order here), minus stop-words and short tokens, stably
sorted by length descending, first 10. -/
def extractTechnicalTerms (description : String) : List String :=
  let ws := pyWords (strLower description)
  let matched := ws.filter (fun w => techSuffixes.any (fun suf => strEndsWithB w suf))
  let terms := dedupKeepFirst matched
  let technicalTerms := terms.filter (fun t => decide (t ∉ commonWords) && decide (3 < t.length))
  (sortByLenDesc technicalTerms).take 10

/-- Problem-indicator substrings of `_extract_problem_terms`. -/
def problemIndicators : List String :=
  ["problem", "challenge", "difficulty", "limitation", "issue", "need"]

/-- `_extract_problem_terms`: for each whitespace token containing an
indicator substring, collect the length->3 tokens of the surrounding
`[i-2, i+3)` window; dedupe (set order fixed to first occurrence), take 5. -/
def extractProblemTerms (description : String) : List String :=
  let words := pySplit (strLower description)
  let collected := words.enum.foldl
    (fun acc iw =>
      if problemIndicators.any (fun ind => strContains iw.2 ind) then
        let start := iw.1 - 2
        let stop := min words.length (iw.1 + 3)
        acc ++ ((words.drop start).take (stop - start)).filter (fun w => decide (3 < w.length))
      else acc) []
  (dedupKeepFirst collected).take 5

/-- The verb alternatives of the three regex patterns of
`_extract_function_terms`; a word matches `\b(?:...)\w*\b` exactly when it
starts with one of these. -/
def functionVerbs : List String :=
  ["detect", "analyze", "process", "generate", "create", "optimize", "improve",
   "enhance", "reduce", "calculate", "determine", "identify", "classify",
   "predict", "estimate", "measure", "control", "manage", "monitor", "track",
   "observe", "record", "store", "retrieve"]

/-- `_extract_function_terms`: words of the lowered description starting with
an action verb, deduplicated, lexicographically sorted, first 5. -/
def extractFunctionTerms (description : String) : List String :=
  let ws := pyWords (strLower description)
  let fns := dedupKeepFirst (ws.filter (fun w => functionVerbs.any (fun v => strStartsWithB w v)))
  (sortLexAsc fns).take 5

/-- `_clean_search_query`: replace every character outside `\w`, `\s`, `-`
with a space, collapse whitespace, and if the result exceeds 100 characters
keep only its first 15 words. -/
def cleanSearchQuery (query : String) : String :=
  let replaced := query.data.map (fun c => if isWordChar c || isSpaceB c || c = '-' then c else ' ')
  let cleaned := joinChars [' '] (splitRunsAux isSpaceB [] replaced)
  if 100 < cleaned.length then
    String.mk (joinChars [' '] ((splitRunsAux isSpaceB [] cleaned).take 15))
  else String.mk cleaned

/-- Python `technical_field.split('/')[0]`. -/
def fieldHead (technicalField : String) : String :=
  String.mk (technicalField.data.takeWhile (fun c => c ≠ '/'))

/-- The cleanup loop at the end of `_generate_search_queries`: clean each
query, keep it when non-empty and not seen before. -/
def cleanQueryStep (acc : List String) (q : String) : List String :=
  if cleanSearchQuery q ≠ "" ∧ cleanSearchQuery q ∉ acc then acc ++ [cleanSearchQuery q]
  else acc

/-- The raw (uncleaned) queries produced by the five strategies of
`_generate_search_queries`, in source order; each strategy contributes at
most one query and the broad technical-field query always closes the list. -/
def strategyQueries (description technicalField : String)
    (keywords : Option (List String)) : List String :=
  let techTerms := extractTechnicalTerms description
  let problemTerms := extractProblemTerms description
  let functionTerms := extractFunctionTerms description
  (if techTerms = [] then []
     else [technicalField ++ " " ++ joinWith " " (techTerms.take 5)]) ++
    (if problemTerms = [] then []
     else ["method system apparatus " ++ joinWith " " (problemTerms.take 3)]) ++
    (if functionTerms = [] then []
     else [fieldHead technicalField ++ " " ++ joinWith " " (functionTerms.take 3)]) ++
    (match keywords with
     | some ks => if ks = [] then [] else [joinWith " " (ks.take 5)]
     | none => []) ++
    [technicalField]

/-- `_generate_search_queries`: the five strategies in source order followed
by the clean/dedupe loop and truncation to 5. -/
def generateSearchQueries (description technicalField : String)
    (keywords : Option (List String)) : List String :=
  ((strategyQueries description technicalField keywords).foldl cleanQueryStep []).take 5

/-! ### Data model -/

/-- The `PatentResult` dataclass: one enriched patent search result.
Scores are modelled in `ℚ` (the source uses Python floats). -/
structure PatentResult where
  patent_id : String
  title : String
  abstract : String
  inventors : List String
  assignee : String
  filing_date : String
  publication_date : String
  patent_office : String
  classification : List String
  url : String
  similarity_score : ℚ
  relevance_reason : String
deriving Repr, DecidableEq

/-! ### Similarity scoring (`_calculate_similarity_score`) -/

/-- `f"{patent.title} {patent.abstract}".lower()`. -/
def patentText (p : PatentResult) : String :=
  strLower (p.title ++ " " ++ p.abstract)

/-- The word set of a text: whitespace tokens, first occurrence kept
(Python `set(text.split())`, one valid linearisation). -/
def wordSet (s : String) : List String :=
  dedupKeepFirst (pySplit s)

/-- The intersection of the patent's and the invention's word sets. -/
def jaccardInter (p : PatentResult) (inventionDescription : String) : List String :=
  (wordSet (patentText p)).filter (fun w => decide (w ∈ wordSet (strLower inventionDescription)))

/-- The union of the patent's and the invention's word sets. -/
def jaccardUnion (p : PatentResult) (inventionDescription : String) : List String :=
  wordSet (patentText p) ++
    (wordSet (strLower inventionDescription)).filter
      (fun w => decide (w ∉ wordSet (patentText p)))

/-- Python `int(s)` restricted to its ASCII behaviour: optional surrounding
whitespace, optional sign, at least one digit.  (Digit-group underscores,
accepted by CPython, are not modelled; no verified property uses them.) -/
def pyParseInt (s : String) : Option Int :=
  let t := (s.data.dropWhile isSpaceB).reverse.dropWhile isSpaceB |>.reverse
  let signAndDigits : Bool × List Char :=
    match t with
    | '+' :: rest => (false, rest)
    | '-' :: rest => (true, rest)
    | rest => (false, rest)
  let ds := signAndDigits.2
  if ds ≠ [] ∧ ds.all (fun c => c.isDigit) then
    let n : Nat := ds.foldl (fun acc c => acc * 10 + (c.toNat - '0'.toNat)) 0
    some (if signAndDigits.1 then -(n : Int) else (n : Int))
  else none

/-- `int(patent.publication_date.split('-')[0])`, with parse failure (the
source's swallowed exception) as `none`; the leading-`'-'` case yields an
empty first piece, hence `none`, matching `int('')` raising. -/
def parsePubYear (publicationDate : String) : Option Int :=
  pyParseInt (String.mk (publicationDate.data.takeWhile (fun c => c ≠ '-')))

/-- `_calculate_similarity_score`: Jaccard similarity of the two word sets,
0 on an empty union, multiplied by the recency boost when a publication
year parses, clamped to 1.  `currentYear` stands for
`datetime.now().year`. -/
def calculateSimilarityScore (currentYear : Int) (p : PatentResult)
    (inventionDescription : String) : ℚ :=
  if (jaccardUnion p inventionDescription).length = 0 then 0
  else
    let jaccardScore : ℚ :=
      (jaccardInter p inventionDescription).length / (jaccardUnion p inventionDescription).length
    let boosted : ℚ :=
      if p.publication_date ≠ "" then
        match parsePubYear p.publication_date with
        | some pubYear =>
          jaccardScore * (1 + max 0 (1 - ((currentYear : ℚ) - (pubYear : ℚ)) / 20) * (2 / 10))
        | none => jaccardScore
      else jaccardScore
    min 1 boosted

/-! ### Relevance reasons (`_generate_relevance_reason`) -/

/-- `_generate_relevance_reason`: the four branches in source order. -/
def generateRelevanceReason (p : PatentResult) (inventionDescription : String) : String :=
  let patentWords := dedupKeepFirst ((pySplit (patentText p)).filter (fun w => decide (4 < w.length)))
  let inventionWords :=
    (pySplit (strLower inventionDescription)).filter (fun w => decide (4 < w.length))
  let commonTerms := patentWords.filter (fun w => decide (w ∈ inventionWords))
  if 3 ≤ commonTerms.length then
    "Shares key concepts: " ++ joinWith ", " ((sortLexAsc commonTerms).take 3)
  else if p.assignee ≠ "" then
    "Related work by " ++ p.assignee
  else if p.patent_office = "USPTO" then
    "US patent in similar technical field"
  else
    "Similar technical approach"

/-! ### Deduplication and ranking (`_deduplicate_and_rank`) -/

/-- The first dedup pass: keep a candidate when its `patent_id` was not seen
before (`seen_ids` accumulates the ids). -/
def dedupByIdAux (seen : List String) : List PatentResult → List PatentResult
  | [] => []
  | p :: ps =>
    if p.patent_id ∈ seen then dedupByIdAux seen ps
    else p :: dedupByIdAux (p.patent_id :: seen) ps

/-- The in-place mutation of the ranking loop: set `similarity_score`, then
`relevance_reason` (computed on the already-rescored record, as in the
source; the reason does not read the score). -/
def scorePatent (currentYear : Int) (inventionDescription : String)
    (p : PatentResult) : PatentResult :=
  let p1 := { p with similarity_score := calculateSimilarityScore currentYear p inventionDescription }
  { p1 with relevance_reason := generateRelevanceReason p1 inventionDescription }

/-- Insert into a score-descending sorted list, after strictly greater
scores and before ties — the stability of Python
`sorted(key=..., reverse=True)`. -/
def insertByScoreDesc (x : PatentResult) : List PatentResult → List PatentResult
  | [] => [x]
  | y :: ys =>
    if x.similarity_score < y.similarity_score then y :: insertByScoreDesc x ys
    else x :: y :: ys

/-- Stable sort by similarity score, descending — extensionally Python's
`sorted(unique_patents, key=lambda p: p.similarity_score, reverse=True)`. -/
def sortByScoreDesc : List PatentResult → List PatentResult
  | [] => []
  | x :: xs => insertByScoreDesc x (sortByScoreDesc xs)

/-- `_deduplicate_and_rank`: dedup by id (first seen wins), score every
survivor, sort by score descending, truncate to `maxResults`. -/
def deduplicateAndRank (currentYear : Int) (patents : List PatentResult)
    (inventionDescription : String) (maxResults : Nat) : List PatentResult :=
  let uniquePatents := dedupByIdAux [] patents
  let scored := uniquePatents.map (scorePatent currentYear inventionDescription)
  (sortByScoreDesc scored).take maxResults

/-! ### Confidence scoring (`_calculate_search_confidence`) -/

/-- Ideal decimal rounding to 2 places, ties to even, as `round(x, 2)`
performs on the value it is handed (the binary-float representation noise
of the source is abstracted away by the `ℚ` model). -/
def round2 (q : ℚ) : ℚ :=
  let f : ℤ := Int.floor (q * 100)
  let r : ℚ := q * 100 - (f : ℚ)
  let n : ℤ :=
    if 1 / 2 < r then f + 1
    else if r < 1 / 2 then f
    else if f % 2 = 0 then f else f + 1
  (n : ℚ) / 100

/-- `_calculate_search_confidence`. -/
def calculateSearchConfidence (uniqueResults totalResults queryCount : Nat) : ℚ :=
  if totalResults = 0 then 0
  else
    let resultConfidence : ℚ := min 1 ((uniqueResults : ℚ) / 20)
    let queryConfidence : ℚ := min 1 ((queryCount : ℚ) / 3)
    let diversityPenalty : ℚ := max (1 / 2) ((uniqueResults : ℚ) / ((max 1 totalResults : Nat) : ℚ))
    round2 ((resultConfidence + queryConfidence + diversityPenalty) / 3)

/-! ### Prior-art impact adjustment (`analyze_prior_art_impact`, `main.py`) -/

/-- The dictionary returned by `analyze_prior_art_impact`. -/
structure PriorArtImpact where
  novelty_reduction : ℚ
  obviousness_increase : ℚ
  summary : String
  recommendations : List String
  risk_factors : List String
deriving Repr, DecidableEq

/-- The high-similarity bucket: score strictly above 0.7. -/
def highSimilarity (patents : List PatentResult) : List PatentResult :=
  patents.filter (fun p => decide (7 / 10 < p.similarity_score))

/-- The medium-similarity bucket: score in [0.4, 0.7]. -/
def mediumSimilarity (patents : List PatentResult) : List PatentResult :=
  patents.filter (fun p => decide (4 / 10 ≤ p.similarity_score ∧ p.similarity_score ≤ 7 / 10))

/-- `analyze_prior_art_impact`: of its three arguments only the patents of
the prior-art result feed the computation, so the embedding takes that
list.  The zero-patent early return, bucket-driven deltas, narrative
strings and the generic-fallback substitutions follow the source line by
line. -/
def analyzePriorArtImpact (patents : List PatentResult) : PriorArtImpact :=
  if patents = [] then
    { novelty_reduction := 0
      obviousness_increase := 0
      summary := "No relevant prior art found."
      recommendations := ["Consider broader patent search before filing"]
      risk_factors := [] }
  else
    let high := highSimilarity patents
    let medium := mediumSimilarity patents
    let noveltyReduction : ℚ :=
      if high ≠ [] then min (4 / 10) ((high.length : ℚ) * (1 / 10))
      else if medium ≠ [] then min (2 / 10) ((medium.length : ℚ) * (5 / 100))
      else 0
    let obviousnessIncrease : ℚ :=
      if high ≠ [] then min (3 / 10) ((high.length : ℚ) * (8 / 100))
      else if medium ≠ [] then min (15 / 100) ((medium.length : ℚ) * (4 / 100))
      else 0
    let riskFactors : List String :=
      if high ≠ [] then
        ("Found " ++ toString high.length ++ " highly similar patents") ::
          (high.take 3).map
            (fun p => "Similar patent: " ++ p.patent_id ++ " - " ++ String.mk (p.title.data.take 60) ++ "...")
      else []
    let recommendations : List String :=
      if high ≠ [] then ["Conduct detailed patentability analysis against similar patents"]
      else if medium ≠ [] then ["Review similar patents to strengthen differentiation"]
      else []
    let summary : String :=
      if high ≠ [] then
        "Found " ++ toString high.length ++ " highly similar patents that may impact patentability"
      else if medium ≠ [] then
        "Found " ++ toString medium.length ++ " moderately similar patents requiring review"
      else "Prior art search revealed low similarity with existing patents"
    { novelty_reduction := noveltyReduction
      obviousness_increase := obviousnessIncrease
      summary := summary
      recommendations :=
        if recommendations = [] then ["Patent landscape appears favorable for filing"]
        else recommendations
      risk_factors :=
        if riskFactors = [] then ["Limited prior art conflicts identified"] else riskFactors }

/-- The score adjustment of `assess_with_prior_art` (`main.py:431`):
`adjusted_novelty = max(0.0, assessment_result.novelty - prior_art_impact['novelty_reduction'])`. -/
def adjustedNovelty (novelty noveltyReduction : ℚ) : ℚ :=
  max 0 (novelty - noveltyReduction)

/-- The score adjustment of `assess_with_prior_art` (`main.py:432`):
`adjusted_non_obviousness = max(0.0, assessment_result.non_obviousness -
prior_art_impact['obviousness_increase'])`. -/
def adjustedNonObviousness (nonObviousness obviousnessIncrease : ℚ) : ℚ :=
  max 0 (nonObviousness - obviousnessIncrease)

/-! ### Result parsing (`_parse_patent_result`, `_extract_patent_id_from_url`,
`_determine_patent_office`) -/

/-- The first metatag block of a hit's `pagemap['metatags']`: the two
citation dates read by `_parse_patent_result`, defaulting to the empty
string when the key is absent. -/
structure MetaTags where
  citation_patent_filing_date : String
  citation_patent_publication_date : String
deriving Repr, DecidableEq

/-- One raw Google CSE hit, holding exactly the parts of the JSON item that
`_parse_patent_result` reads: `link`, `title`, `snippet`, and the
opportunistic `pagemap` blocks (person names, organization names,
metatags), each empty when the corresponding key is absent. -/
structure SearchItem where
  link : String
  title : String
  snippet : String
  personNames : List String
  organizationNames : List String
  metatags : List MetaTags
deriving Repr, DecidableEq

/-- The greedy tail of the first URL pattern
`patents\.google\.com/patent/([A-Z]{2}\d+[A-Z]\d*)`: two capitals, a
maximal nonempty digit run, one capital, a maximal digit run.  Because
capitals and digits are disjoint, regex backtracking cannot rescue a
failure, so maximal runs are faithful. -/
def matchIdPat1 : List Char → Option String
  | c1 :: c2 :: rest =>
    if c1.isUpper && c2.isUpper then
      let ds1 := rest.takeWhile (fun c => c.isDigit)
      let rest1 := rest.dropWhile (fun c => c.isDigit)
      if ds1 = [] then none
      else
        match rest1 with
        | c3 :: rest2 =>
          if c3.isUpper then
            some (String.mk (c1 :: c2 :: (ds1 ++ c3 :: rest2.takeWhile (fun c => c.isDigit))))
          else none
        | [] => none
    else none
  | _ => none

/-- The greedy tail of the fallback URL pattern
`patents\.google\.com/patent/([A-Z]+\d+)`: a maximal nonempty capital run
followed by a maximal nonempty digit run. -/
def matchIdPat2 (l : List Char) : Option String :=
  let us := l.takeWhile (fun c => c.isUpper)
  let rest := l.dropWhile (fun c => c.isUpper)
  let ds := rest.takeWhile (fun c => c.isDigit)
  if us ≠ [] ∧ ds ≠ [] then some (String.mk (us ++ ds)) else none

/-- The literal part of both URL patterns. -/
def patentUrlLiteral : List Char :=
  "patents.google.com/patent/".data

/-- `re.search` for `patents\.google\.com/patent/<tail>`: try every
position, left to right; at each occurrence of the literal, attempt the
tail match. -/
def searchUrlPattern (tailMatch : List Char → Option String) : List Char → Option String
  | [] => none
  | c :: cs =>
    if startsWithL (c :: cs) patentUrlLiteral then
      match tailMatch (List.drop patentUrlLiteral.length (c :: cs)) with
      | some s => some s
      | none => searchUrlPattern tailMatch cs
    else searchUrlPattern tailMatch cs

/-- `_extract_patent_id_from_url`: first pattern wins, then the fallback,
else the empty string. -/
def extractPatentIdFromUrl (url : String) : String :=
  match searchUrlPattern matchIdPat1 url.data with
  | some s => s
  | none =>
    match searchUrlPattern matchIdPat2 url.data with
    | some s => s
    | none => ""

/-- `_determine_patent_office`: the prefix-to-office mapping. -/
def determinePatentOffice (patentId : String) : String :=
  if strStartsWithB patentId "US" then "USPTO"
  else if strStartsWithB patentId "EP" then "EPO"
  else if strStartsWithB patentId "WO" then "WIPO"
  else if strStartsWithB patentId "CN" then "CNIPA"
  else if strStartsWithB patentId "JP" then "JPO"
  else if strStartsWithB patentId "KR" then "KIPO"
  else "Unknown"

/-- Python `s.replace(pat, rep)` (all occurrences, left to right); the
`Nat` argument counts characters still to skip after a replacement. -/
def replaceAllAux (pat rep : List Char) : Nat → List Char → List Char
  | _, [] => []
  | Nat.succ k, _ :: cs => replaceAllAux pat rep k cs
  | 0, c :: cs =>
    if pat ≠ [] ∧ startsWithL (c :: cs) pat then
      rep ++ replaceAllAux pat rep (pat.length - 1) cs
    else c :: replaceAllAux pat rep 0 cs

/-- Python `s.replace(pat, rep)` on strings. -/
def strReplace (s pat rep : String) : String :=
  String.mk (replaceAllAux pat.data rep.data 0 s.data)

/-- `_parse_patent_result`: discard the hit when no patent id can be
extracted from its URL, otherwise build the `PatentResult` with
opportunistic metadata and empty defaults. -/
def parsePatentResult (item : SearchItem) : Option PatentResult :=
  let patentId := extractPatentIdFromUrl item.link
  if patentId = "" then none
  else
    let meta := item.metatags.headD ⟨"", ""⟩
    some
      { patent_id := patentId
        title := strReplace item.title " - Google Patents" ""
        abstract := if item.snippet = "" then "" else String.mk (item.snippet.data.take 500)
        inventors := item.personNames.filter (fun n => n ≠ "")
        assignee := item.organizationNames.headD ""
        filing_date := meta.citation_patent_filing_date
        publication_date := meta.citation_patent_publication_date
        patent_office := determinePatentOffice patentId
        classification := []
        url := item.link
        similarity_score := 0
        relevance_reason := "" }

/-! ### Search Client (`_search_patents`)

The HTTP layer is abstracted as an oracle from the request parameters the
source varies (query, date range, start offset) to a reply; everything the
source does around the oracle — the credential guard, the pagination loop
with its three stop conditions, and per-item parsing — is embedded. -/

/-- One Google CSE reply: HTTP status, and the `items` array when the key
is present. -/
structure PageReply where
  status : Nat
  items : Option (List SearchItem)

/-- The two client credentials; `none` models an unset environment
variable, and Python truthiness makes `""` equivalent to unset. -/
structure SearchConfig where
  apiKey : Option String
  searchEngineId : Option String

/-- `not self.api_key or not self.search_engine_id`. -/
def credentialsMissing (cfg : SearchConfig) : Bool :=
  cfg.apiKey.getD "" = "" || cfg.searchEngineId.getD "" = ""

/-- The pagination loop of `_search_patents` over the start offsets:
stop on a non-200 status, on a missing `items` key, or after a short page
(fewer than 10 items); otherwise parse, accumulate, continue. -/
def fetchPages (provider : Nat → PageReply) : List Nat → List PatentResult
  | [] => []
  | idx :: rest =>
    let reply := provider idx
    if reply.status ≠ 200 then []
    else
      match reply.items with
      | none => []
      | some items =>
        let parsed := items.filterMap parsePatentResult
        if items.length < 10 then parsed
        else parsed ++ fetchPages provider rest

/-- `range(1, min(max_results + 1, 101), 10)`. -/
def startOffsets (maxResults : Nat) : List Nat :=
  List.range' 1 ((min (maxResults + 1) 101 - 1 + 9) / 10) 10

/-- `_search_patents`: when either credential is missing, return the empty
list at once (the source logs a warning, returns `[]`, and raises
nothing); otherwise run the pagination loop against the provider.  The
oracle is already specialised to the fixed request parameters (query,
date range), which the source only forwards. -/
def searchPatents (cfg : SearchConfig) (provider : Nat → PageReply)
    (maxResults : Nat) : List PatentResult :=
  if credentialsMissing cfg then []
  else fetchPages provider (startOffsets maxResults)

/-! ### Concrete candidates used by witnesses -/

/-- Builds a candidate with the fields the verified properties read;
remaining fields are empty, as for a freshly parsed hit. -/
def mkCandidate (id title abstract pub office assignee : String) (score : ℚ) : PatentResult :=
  { patent_id := id
    title := title
    abstract := abstract
    inventors := []
    assignee := assignee
    filing_date := ""
    publication_date := pub
    patent_office := office
    classification := []
    url := ""
    similarity_score := score
    relevance_reason := "" }

/-- The spec's §8 scenario: four patents at similarity 0.9, 0.8, 0.75, 0.5. -/
def scenarioPatents : List PatentResult :=
  [mkCandidate "US1" "" "" "" "" "" (9 / 10),
   mkCandidate "US2" "" "" "" "" "" (8 / 10),
   mkCandidate "US3" "" "" "" "" "" (3 / 4),
   mkCandidate "US4" "" "" "" "" "" (1 / 2)]

/-! ## Helper lemmas -/

/-- Every run produced by `splitRunsAux` is non-empty and free of separator
characters, provided the accumulator is. -/
theorem splitRunsAux_sound {sep : Char → Bool} (l : List Char) :
    ∀ acc : List Char, (∀ c ∈ acc, sep c = false) →
      ∀ w ∈ splitRunsAux sep acc l, w ≠ [] ∧ ∀ c ∈ w, sep c = false := by
  induction l with
  | nil =>
    intro acc hacc w hw
    simp only [splitRunsAux] at hw
    split at hw
    · simp at hw
    · next hne =>
      simp only [List.mem_singleton] at hw
      subst hw
      exact ⟨fun h => hne (List.reverse_eq_nil_iff.mp h),
             fun c hc => hacc c (List.mem_reverse.mp hc)⟩
  | cons c cs ih =>
    intro acc hacc w hw
    simp only [splitRunsAux] at hw
    by_cases hsep : sep c
    · rw [if_pos hsep] at hw
      split at hw
      · exact ih [] (by simp) w hw
      · next hne =>
        rcases List.mem_cons.mp hw with h | h
        · subst h
          exact ⟨fun h => hne (List.reverse_eq_nil_iff.mp h),
                 fun d hd => hacc d (List.mem_reverse.mp hd)⟩
        · exact ih [] (by simp) w h
    · rw [if_neg hsep] at hw
      refine ih (c :: acc) ?_ w hw
      intro d hd
      rcases List.mem_cons.mp hd with h | h
      · subst h; simpa using hsep
      · exact hacc d h

/-- Scanning a separator-free run just moves it into the accumulator. -/
theorem splitRunsAux_run {sep : Char → Bool} (w : List Char)
    (hw : ∀ c ∈ w, sep c = false) :
    ∀ acc l : List Char,
      splitRunsAux sep acc (w ++ l) = splitRunsAux sep (w.reverse ++ acc) l := by
  induction w with
  | nil => intro acc l; simp
  | cons c cs ih =>
    intro acc l
    have hc : sep c = false := hw c (List.mem_cons_self ..)
    have h1 : splitRunsAux sep acc (c :: cs ++ l) = splitRunsAux sep (c :: acc) (cs ++ l) := by
      simp [splitRunsAux, hc]
    rw [h1, ih (fun d hd => hw d (List.mem_cons_of_mem _ hd)) (c :: acc) l]
    simp [List.reverse_cons, List.append_assoc]

/-- Splitting the space-join of non-empty space-free runs recovers them. -/
theorem splitRuns_joinChars : ∀ ws : List (List Char),
    (∀ w ∈ ws, w ≠ [] ∧ ∀ c ∈ w, isSpaceB c = false) →
    splitRunsAux isSpaceB [] (joinChars [' '] ws) = ws := by
  intro ws
  induction ws with
  | nil => intro _; simp [joinChars, splitRunsAux]
  | cons w ws ih =>
    intro h
    obtain ⟨hw1, hw2⟩ := h w (List.mem_cons_self ..)
    cases ws with
    | nil =>
      show splitRunsAux isSpaceB [] (joinChars [' '] [w]) = [w]
      have : joinChars [' '] [w] = w ++ [] := by simp [joinChars]
      rw [this, splitRunsAux_run w hw2 [] []]
      simp only [splitRunsAux, List.append_nil]
      rw [if_neg (by simpa using hw1)]
      simp
    | cons w2 ws2 =>
      have hjoin : joinChars [' '] (w :: w2 :: ws2) =
          w ++ (' ' :: joinChars [' '] (w2 :: ws2)) := by
        simp [joinChars]
      rw [hjoin, splitRunsAux_run w hw2 [] _]
      simp only [splitRunsAux, List.append_nil]
      rw [if_pos (by decide), if_neg (by simpa using hw1)]
      rw [List.reverse_reverse]
      rw [ih (fun v hv => h v (List.mem_cons_of_mem _ hv))]

/-- A cleaned query is short in characters or short in words: the
truncation branch of `_clean_search_query` keeps 15 words but does not
re-check the character bound. -/
theorem cleanSearchQuery_words_le (q : String) :
    (cleanSearchQuery q).length ≤ 100 ∨ (pySplit (cleanSearchQuery q)).length ≤ 15 := by
  unfold cleanSearchQuery
  set replaced := q.data.map
    (fun c => if isWordChar c || isSpaceB c || c = '-' then c else ' ') with hrep
  set cleaned := joinChars [' '] (splitRunsAux isSpaceB [] replaced) with hcl
  by_cases h : 100 < cleaned.length
  · rw [if_pos h]
    right
    have hsound := @splitRunsAux_sound isSpaceB cleaned [] (by simp)
    have htake : ∀ w ∈ (splitRunsAux isSpaceB [] cleaned).take 15,
        w ≠ [] ∧ ∀ c ∈ w, isSpaceB c = false :=
      fun w hw => hsound w (List.take_subset _ _ hw)
    show (pySplit (String.mk (joinChars [' ']
        ((splitRunsAux isSpaceB [] cleaned).take 15)))).length ≤ 15
    unfold pySplit
    rw [show (String.mk (joinChars [' '] ((splitRunsAux isSpaceB [] cleaned).take 15))).data =
        joinChars [' '] ((splitRunsAux isSpaceB [] cleaned).take 15) from rfl]
    rw [splitRuns_joinChars _ htake]
    simp [List.length_take]
  · rw [if_neg h]
    left
    show (String.mk cleaned).length ≤ 100
    simpa using Nat.le_of_not_lt h

/-- The cleanup loop of `_generate_search_queries` preserves
duplicate-freedom. -/
theorem cleanLoop_nodup : ∀ qs acc : List String,
    acc.Nodup → (qs.foldl cleanQueryStep acc).Nodup := by
  intro qs
  induction qs with
  | nil => intro acc h; simpa using h
  | cons q qs ih =>
    intro acc h
    simp only [List.foldl_cons]
    apply ih
    unfold cleanQueryStep
    split
    · next hcond => simp [List.nodup_append, h, hcond.2]
    · exact h

/-- Everything the cleanup loop returns is either inherited from the
accumulator or the non-empty cleaning of an input query. -/
theorem cleanLoop_mem : ∀ qs acc : List String, ∀ a ∈ qs.foldl cleanQueryStep acc,
    a ∈ acc ∨ (a ≠ "" ∧ ∃ r ∈ qs, a = cleanSearchQuery r) := by
  intro qs
  induction qs with
  | nil => intro acc a ha; exact Or.inl (by simpa using ha)
  | cons q qs ih =>
    intro acc a ha
    simp only [List.foldl_cons] at ha
    rcases ih _ a ha with h | h
    · unfold cleanQueryStep at h
      split at h
      · next hcond =>
        rcases List.mem_append.mp h with h2 | h2
        · exact Or.inl h2
        · right
          simp only [List.mem_singleton] at h2
          subst h2
          exact ⟨hcond.1, q, List.mem_cons_self .., rfl⟩
      · exact Or.inl h
    · obtain ⟨hne, r, hr, he⟩ := h
      exact Or.inr ⟨hne, r, List.mem_cons_of_mem _ hr, he⟩

/-- The cleanup loop adds at most one entry per input query. -/
theorem cleanLoop_length : ∀ qs acc : List String,
    (qs.foldl cleanQueryStep acc).length ≤ acc.length + qs.length := by
  intro qs
  induction qs with
  | nil => simp
  | cons q qs ih =>
    intro acc
    simp only [List.foldl_cons]
    refine le_trans (ih _) ?_
    have : (cleanQueryStep acc q).length ≤ acc.length + 1 := by
      unfold cleanQueryStep
      split <;> simp
    simp only [List.length_cons]
    omega

/-- The cleanup loop never discards accumulator entries. -/
theorem cleanLoop_mem_mono : ∀ (qs acc : List String) (a : String),
    a ∈ acc → a ∈ qs.foldl cleanQueryStep acc := by
  intro qs
  induction qs with
  | nil => intro acc a h; simpa using h
  | cons q qs ih =>
    intro acc a h
    simp only [List.foldl_cons]
    apply ih
    unfold cleanQueryStep
    split
    · exact List.mem_append_left _ h
    · exact h

/-- A query whose cleaning is non-empty survives the cleanup loop. -/
theorem cleanLoop_clean_mem : ∀ (qs acc : List String) (r : String),
    r ∈ qs → cleanSearchQuery r ≠ "" →
    cleanSearchQuery r ∈ qs.foldl cleanQueryStep acc := by
  intro qs
  induction qs with
  | nil => intro acc r h _; simp at h
  | cons q qs ih =>
    intro acc r hr hne
    simp only [List.foldl_cons]
    rcases List.mem_cons.mp hr with h | h
    · subst h
      apply cleanLoop_mem_mono
      unfold cleanQueryStep
      split
      · exact List.mem_append_right _ (by simp)
      · next hcond =>
        by_contra hmem
        exact hcond ⟨hne, hmem⟩
    · exact ih _ r h hne

/-- At most five raw strategy queries are ever generated. -/
theorem strategyQueries_length (d f : String) (kw : Option (List String)) :
    (strategyQueries d f kw).length ≤ 5 := by
  unfold strategyQueries
  rcases kw with _ | ks <;> dsimp only <;> split_ifs <;> simp

/-- The broad technical-field query always closes the strategy list. -/
theorem field_mem_strategyQueries (d f : String) (kw : Option (List String)) :
    f ∈ strategyQueries d f kw := by
  unfold strategyQueries
  rcases kw with _ | ks <;> dsimp only <;> split_ifs <;> simp

/-! ## Claim C1 -/

/-- **C1** (amended).  For every invention description, technical-field
string and optional keyword list, `_generate_search_queries` returns
between 0 and 5 pairwise-distinct non-empty cleaned query strings; each
returned query is at most 100 characters long or consists of at most 15
words; and the cleaned technical-field query is included whenever cleaning
the technical field leaves it non-empty, in which case the result is
non-empty.  (The original claim's guarantees of a never-empty result and
of an unconditional 100-character bound fail, see the counterexample.) -/
theorem generateSearchQueries_bounds (d f : String) (kw : Option (List String)) :
    (generateSearchQueries d f kw).length ≤ 5 ∧
    (generateSearchQueries d f kw).Nodup ∧
    (∀ q ∈ generateSearchQueries d f kw,
      q ≠ "" ∧ (q.length ≤ 100 ∨ (pySplit q).length ≤ 15)) ∧
    (cleanSearchQuery f ≠ "" →
      cleanSearchQuery f ∈ generateSearchQueries d f kw ∧
      generateSearchQueries d f kw ≠ []) := by
  have hfold_nodup := cleanLoop_nodup (strategyQueries d f kw) [] (by simp)
  refine ⟨?_, ?_, ?_, ?_⟩
  · unfold generateSearchQueries
    exact List.length_take_le ..
  · exact (List.take_sublist ..).nodup hfold_nodup
  · intro q hq
    have hq2 : q ∈ (strategyQueries d f kw).foldl cleanQueryStep [] :=
      List.take_subset _ _ hq
    rcases cleanLoop_mem _ _ q hq2 with h | h
    · simp at h
    · obtain ⟨hne, r, _, he⟩ := h
      subst he
      exact ⟨hne, cleanSearchQuery_words_le r⟩
  · intro hne
    have h1 : cleanSearchQuery f ∈ (strategyQueries d f kw).foldl cleanQueryStep [] :=
      cleanLoop_clean_mem _ [] f (field_mem_strategyQueries d f kw) hne
    have h2 : ((strategyQueries d f kw).foldl cleanQueryStep []).length ≤ 5 :=
      le_trans (by simpa using cleanLoop_length (strategyQueries d f kw) [])
        (strategyQueries_length d f kw)
    have h3 : generateSearchQueries d f kw =
        (strategyQueries d f kw).foldl cleanQueryStep [] := by
      unfold generateSearchQueries
      exact List.take_of_length_le h2
    rw [h3]
    exact ⟨h1, List.ne_nil_of_mem h1⟩

/-- **C1**, counterexample to the claim as stated: with an empty
description, no keywords and the technical field `"!!!"`, every strategy
query cleans to the empty string, so the generator returns the empty list
(the claimed range is 1–5 and the broad-field fallback is absent); and
with a technical field that is one 101-character word, the single returned
query still has 101 characters after cleaning. -/
theorem generateSearchQueries_claim_counterexample :
    generateSearchQueries "" "!!!" none = [] ∧
    ∃ q ∈ generateSearchQueries "" (String.mk (List.replicate 101 'a')) none,
      100 < q.length := by
  constructor
  · decide
  · decide

/-- **C1**, witness: at a non-degenerate technical field the hypothesis of
the fallback clause holds and the generator output is non-empty. -/
theorem generateSearchQueries_bounds_witness :
    generateSearchQueries "" "machine learning" none ≠ [] :=
  ((generateSearchQueries_bounds "" "machine learning" none).2.2.2 (by decide)).2

/-! ## Deduplication and ranking lemmas -/

/-- Survivors of the dedup pass carry ids the pass had not seen. -/
theorem dedupByIdAux_not_seen : ∀ (ps : List PatentResult) (seen : List String),
    ∀ q ∈ dedupByIdAux seen ps, q.patent_id ∉ seen := by
  intro ps
  induction ps with
  | nil => intro seen q hq; simp [dedupByIdAux] at hq
  | cons p ps ih =>
    intro seen q hq
    unfold dedupByIdAux at hq
    split at hq
    · exact ih seen q hq
    · next hmem =>
      rcases List.mem_cons.mp hq with h | h
      · subst h; exact hmem
      · have := ih (p.patent_id :: seen) q h
        exact fun hc => this (List.mem_cons_of_mem _ hc)

/-- The dedup pass leaves pairwise-distinct patent ids. -/
theorem dedupByIdAux_nodup : ∀ (ps : List PatentResult) (seen : List String),
    ((dedupByIdAux seen ps).map (fun p => p.patent_id)).Nodup := by
  intro ps
  induction ps with
  | nil => intro seen; simp [dedupByIdAux]
  | cons p ps ih =>
    intro seen
    unfold dedupByIdAux
    split
    · exact ih seen
    · refine List.Pairwise.cons ?_ (ih (p.patent_id :: seen))
      intro b hb
      simp only [List.mem_map] at hb
      obtain ⟨q, hq, he⟩ := hb
      subst he
      have := dedupByIdAux_not_seen ps (p.patent_id :: seen) q hq
      exact fun hc => this (hc ▸ List.mem_cons_self ..)

/-- Each survivor of the dedup pass is the first input candidate bearing
its patent id. -/
theorem dedupByIdAux_first : ∀ (ps : List PatentResult) (seen : List String),
    ∀ q ∈ dedupByIdAux seen ps,
      ps.find? (fun r => r.patent_id == q.patent_id) = some q := by
  intro ps
  induction ps with
  | nil => intro seen q hq; simp [dedupByIdAux] at hq
  | cons p ps ih =>
    intro seen q hq
    unfold dedupByIdAux at hq
    split at hq
    · next hmem =>
      have hne : q.patent_id ≠ p.patent_id := by
        intro hc
        exact dedupByIdAux_not_seen ps seen q hq (hc ▸ hmem)
      rw [List.find?_cons_of_neg _ (by simpa using fun h => hne h.symm)]
      exact ih seen q hq
    · next hmem =>
      rcases List.mem_cons.mp hq with h | h
      · subst h
        rw [List.find?_cons_of_pos _ (by simp)]
      · have hne : q.patent_id ≠ p.patent_id := by
          intro hc
          exact dedupByIdAux_not_seen ps (p.patent_id :: seen) q h
            (hc ▸ List.mem_cons_self ..)
        rw [List.find?_cons_of_neg _ (by simpa using fun h => hne h.symm)]
        exact ih _ q h

/-- Score-descending insertion produces a permutation. -/
theorem insertByScoreDesc_perm (x : PatentResult) :
    ∀ l : List PatentResult, List.Perm (insertByScoreDesc x l) (x :: l) := by
  intro l
  induction l with
  | nil => simp [insertByScoreDesc]
  | cons y ys ih =>
    unfold insertByScoreDesc
    split
    · exact ((ih).cons y).trans (List.Perm.swap ..)
    · exact List.Perm.refl _

/-- The stable score-descending sort is a permutation. -/
theorem sortByScoreDesc_perm : ∀ l : List PatentResult, List.Perm (sortByScoreDesc l) l := by
  intro l
  induction l with
  | nil => simp [sortByScoreDesc]
  | cons x xs ih =>
    exact (insertByScoreDesc_perm x (sortByScoreDesc xs)).trans (ih.cons x)

/-- Score-descending insertion preserves sortedness. -/
theorem insertByScoreDesc_sorted (x : PatentResult) :
    ∀ l : List PatentResult,
      l.Pairwise (fun a b => b.similarity_score ≤ a.similarity_score) →
      (insertByScoreDesc x l).Pairwise
        (fun a b => b.similarity_score ≤ a.similarity_score) := by
  intro l
  induction l with
  | nil => intro _; simp [insertByScoreDesc]
  | cons y ys ih =>
    intro h
    rcases List.pairwise_cons.mp h with ⟨hy, hys⟩
    unfold insertByScoreDesc
    split
    · next hlt =>
      refine List.pairwise_cons.mpr ⟨?_, ih hys⟩
      intro b hb
      rcases List.mem_cons.mp ((insertByScoreDesc_perm x ys).mem_iff.mp hb) with h1 | h1
      · subst h1; exact le_of_lt hlt
      · exact hy b h1
    · next hge =>
      refine List.pairwise_cons.mpr ⟨?_, h⟩
      intro b hb
      rcases List.mem_cons.mp hb with h1 | h1
      · subst h1; exact le_of_not_lt hge
      · exact le_trans (hy b h1) (le_of_not_lt hge)

/-- The stable score-descending sort sorts. -/
theorem sortByScoreDesc_sorted : ∀ l : List PatentResult,
    (sortByScoreDesc l).Pairwise (fun a b => b.similarity_score ≤ a.similarity_score) := by
  intro l
  induction l with
  | nil => simp [sortByScoreDesc]
  | cons x xs ih => exact insertByScoreDesc_sorted x (sortByScoreDesc xs) ih

/-! ## Claims C2, C8 -/

/-- **C2**.  The output of `_deduplicate_and_rank` carries pairwise-distinct
patent ids, and every returned record is the rescored first input
candidate bearing its id — `find?` returns the first match, so first-seen
wins — with every field except `similarity_score` and `relevance_reason`
retained unchanged from that first-seen candidate (later duplicates are
dropped, nothing is merged). -/
theorem deduplicateAndRank_dedup (cy : Int) (patents : List PatentResult)
    (d : String) (maxr : Nat) :
    ((deduplicateAndRank cy patents d maxr).map (fun p => p.patent_id)).Nodup ∧
    (∀ q ∈ deduplicateAndRank cy patents d maxr, ∃ p,
      patents.find? (fun r => r.patent_id == q.patent_id) = some p ∧
      q = scorePatent cy d p ∧
      q.patent_id = p.patent_id ∧ q.title = p.title ∧ q.abstract = p.abstract ∧
      q.inventors = p.inventors ∧ q.assignee = p.assignee ∧
      q.filing_date = p.filing_date ∧ q.publication_date = p.publication_date ∧
      q.patent_office = p.patent_office ∧ q.classification = p.classification ∧
      q.url = p.url) := by
  have hperm : List.Perm
      (sortByScoreDesc ((dedupByIdAux [] patents).map (scorePatent cy d)))
      ((dedupByIdAux [] patents).map (scorePatent cy d)) := sortByScoreDesc_perm _
  constructor
  · show (((sortByScoreDesc ((dedupByIdAux [] patents).map (scorePatent cy d))).take maxr).map
      (fun p => p.patent_id)).Nodup
    have h1 : (((dedupByIdAux [] patents).map (scorePatent cy d)).map
        (fun p => p.patent_id)).Nodup := by
      rw [List.map_map]
      exact dedupByIdAux_nodup patents []
    have h2 : ((sortByScoreDesc ((dedupByIdAux [] patents).map (scorePatent cy d))).map
        (fun p => p.patent_id)).Nodup :=
      (hperm.map _).nodup_iff.mpr h1
    exact ((List.take_sublist ..).map _).nodup h2
  · intro q hq
    have hq1 : q ∈ sortByScoreDesc ((dedupByIdAux [] patents).map (scorePatent cy d)) :=
      List.take_subset _ _ hq
    have hq2 : q ∈ (dedupByIdAux [] patents).map (scorePatent cy d) :=
      hperm.mem_iff.mp hq1
    obtain ⟨p, hp, he⟩ := List.mem_map.mp hq2
    subst he
    exact ⟨p, dedupByIdAux_first patents [] p hp, rfl, rfl, rfl, rfl, rfl, rfl, rfl,
      rfl, rfl, rfl, rfl⟩

/-- **C2**, witness: two candidates share id "US1"; the survivor in the
ranked output is the rescored first-seen candidate, title retained. -/
theorem deduplicateAndRank_dedup_witness :
    ∃ p, List.find? (fun r => r.patent_id ==
        (scorePatent 2025 "" (mkCandidate "US1" "one" "" "" "" "" 0)).patent_id)
        [mkCandidate "US1" "one" "" "" "" "" 0, mkCandidate "US1" "two" "" "" "" "" 0] =
        some p ∧
      (scorePatent 2025 "" (mkCandidate "US1" "one" "" "" "" "" 0)).title = p.title := by
  obtain ⟨p, hfind, _, _, htitle, _⟩ := (deduplicateAndRank_dedup 2025
    [mkCandidate "US1" "one" "" "" "" "" 0, mkCandidate "US1" "two" "" "" "" "" 0] "" 10).2
    (scorePatent 2025 "" (mkCandidate "US1" "one" "" "" "" "" 0)) (by decide)
  exact ⟨p, hfind, htitle⟩

/-- **C8**.  The list `_deduplicate_and_rank` returns is sorted with
monotonically non-increasing similarity scores and has length at most
`max_results`. -/
theorem deduplicateAndRank_ranked (cy : Int) (patents : List PatentResult)
    (d : String) (maxr : Nat) :
    (deduplicateAndRank cy patents d maxr).Pairwise
      (fun a b => b.similarity_score ≤ a.similarity_score) ∧
    (deduplicateAndRank cy patents d maxr).length ≤ maxr := by
  constructor
  · show ((sortByScoreDesc ((dedupByIdAux [] patents).map (scorePatent cy d))).take
      maxr).Pairwise (fun a b => b.similarity_score ≤ a.similarity_score)
    exact List.Pairwise.sublist (List.take_sublist ..) (sortByScoreDesc_sorted _)
  · show ((sortByScoreDesc ((dedupByIdAux [] patents).map (scorePatent cy d))).take
      maxr).length ≤ maxr
    exact List.length_take_le ..

/-! ## Claim C10 -/

/-- A string with non-empty character data is not the empty string. -/
theorem str_ne_empty_of_data {s : String} (h : s.data ≠ []) : s ≠ "" := by
  intro he
  apply h
  rw [he]

/-- Appending to a non-empty string stays non-empty. -/
theorem strAppend_ne_empty (s t : String) (h : s.data ≠ []) : s ++ t ≠ "" := by
  apply str_ne_empty_of_data
  rw [String.data_append]
  simp [h]

/-- Each of the four branches of `_generate_relevance_reason` yields a
non-empty string. -/
theorem generateRelevanceReason_ne_empty (p : PatentResult) (d : String) :
    generateRelevanceReason p d ≠ "" := by
  unfold generateRelevanceReason
  dsimp only
  split_ifs
  · exact strAppend_ne_empty _ _ (by decide)
  · exact strAppend_ne_empty _ _ (by decide)
  · decide
  · decide

/-- **C10**.  Every `PatentResult` returned by `_deduplicate_and_rank`
carries a non-empty `relevance_reason`: the reason generator is applied to
every surviving candidate and each of its four branches returns a
non-empty string. -/
theorem deduplicateAndRank_reason_nonempty (cy : Int) (patents : List PatentResult)
    (d : String) (maxr : Nat) :
    ∀ q ∈ deduplicateAndRank cy patents d maxr, q.relevance_reason ≠ "" := by
  intro q hq
  have hq1 : q ∈ sortByScoreDesc ((dedupByIdAux [] patents).map (scorePatent cy d)) :=
    List.take_subset _ _ hq
  have hq2 := (sortByScoreDesc_perm _).mem_iff.mp hq1
  obtain ⟨p, _, he⟩ := List.mem_map.mp hq2
  subst he
  exact generateRelevanceReason_ne_empty _ d

/-- **C10**, witness: a concrete singleton search carries its candidate
into the output with the generic fallback reason, which is non-empty. -/
theorem deduplicateAndRank_reason_nonempty_witness :
    (scorePatent 2025 "" (mkCandidate "US9" "" "" "" "" "" 0)).relevance_reason ≠ "" :=
  deduplicateAndRank_reason_nonempty 2025 [mkCandidate "US9" "" "" "" "" "" 0] "" 5 _
    (by decide)

/-! ## Claim C3 -/

/-- **C3**.  For every patent candidate, invention description and current
year, `_calculate_similarity_score` yields a value in [0,1]; it is 0
whenever the union of the two word sets is empty; and the clamp `min 1 ·`
keeps the recency-boosted score at most 1, whatever the boost. -/
theorem calculateSimilarityScore_bounds (cy : Int) (p : PatentResult) (d : String) :
    0 ≤ calculateSimilarityScore cy p d ∧ calculateSimilarityScore cy p d ≤ 1 ∧
    ((jaccardUnion p d).length = 0 → calculateSimilarityScore cy p d = 0) := by
  unfold calculateSimilarityScore
  dsimp only
  split_ifs with h0 hpub
  · exact ⟨le_refl 0, by norm_num, fun _ => rfl⟩
  · have hjac : (0 : ℚ) ≤
        ((jaccardInter p d).length : ℚ) / ((jaccardUnion p d).length : ℚ) := by
      positivity
    refine ⟨?_, min_le_left _ _, fun hc => absurd hc h0⟩
    cases hy : parsePubYear p.publication_date with
    | none => simp only [hy]; exact le_min (by norm_num) hjac
    | some y =>
      simp only [hy]
      refine le_min (by norm_num) (mul_nonneg hjac ?_)
      have hb : (0 : ℚ) ≤ max 0 (1 - ((cy : ℚ) - (y : ℚ)) / 20) := le_max_left 0 _
      linarith
  · have hjac : (0 : ℚ) ≤
        ((jaccardInter p d).length : ℚ) / ((jaccardUnion p d).length : ℚ) := by
      positivity
    exact ⟨le_min (by norm_num) hjac, min_le_left _ _, fun hc => absurd hc h0⟩

/-- **C3**, witness: a candidate whose title, abstract and description are
all empty has an empty word-set union, and the score is 0; and a perfect
Jaccard match published in the current year is boosted by 20% and clamped
back to exactly 1. -/
theorem calculateSimilarityScore_bounds_witness :
    calculateSimilarityScore 2025 (mkCandidate "US1" "" "" "" "" "" 0) "" = 0 ∧
    calculateSimilarityScore 2025
      (mkCandidate "US1" "smart sensor" "" "2025-01-01" "" "" 0) "smart sensor" = 1 :=
  ⟨(calculateSimilarityScore_bounds 2025 (mkCandidate "US1" "" "" "" "" "" 0) "").2.2
      (by decide),
   by decide⟩

/-! ## Claim C4 -/

/-- Ideal 2-decimal rounding maps [0,1] into [0,1]. -/
theorem round2_bounds (x : ℚ) (h0 : 0 ≤ x) (h1 : x ≤ 1) :
    0 ≤ round2 x ∧ round2 x ≤ 1 := by
  have hfl : (Int.floor (x * 100) : ℚ) ≤ x * 100 := Int.floor_le _
  have hf0 : (0 : ℤ) ≤ Int.floor (x * 100) := Int.floor_nonneg.mpr (by linarith)
  have hf100 : Int.floor (x * 100) ≤ 100 := by
    have h2 : (Int.floor (x * 100) : ℚ) ≤ 100 := by linarith
    exact_mod_cast h2
  unfold round2
  dsimp only
  split_ifs with hgt hlt hpar
  · have hf99 : Int.floor (x * 100) ≤ 99 := by
      by_contra hc
      have hfeq : Int.floor (x * 100) = 100 := by omega
      rw [hfeq] at hgt
      push_cast at hgt
      linarith
    refine ⟨div_nonneg ?_ (by norm_num), ?_⟩
    · exact_mod_cast (by omega : (0 : ℤ) ≤ Int.floor (x * 100) + 1)
    · rw [div_le_one (by norm_num)]
      exact_mod_cast (by omega : Int.floor (x * 100) + 1 ≤ 100)
  · refine ⟨div_nonneg (by exact_mod_cast hf0) (by norm_num), ?_⟩
    rw [div_le_one (by norm_num)]
    exact_mod_cast hf100
  · refine ⟨div_nonneg (by exact_mod_cast hf0) (by norm_num), ?_⟩
    rw [div_le_one (by norm_num)]
    exact_mod_cast hf100
  · have hf99 : Int.floor (x * 100) ≤ 99 := by omega
    refine ⟨div_nonneg ?_ (by norm_num), ?_⟩
    · exact_mod_cast (by omega : (0 : ℤ) ≤ Int.floor (x * 100) + 1)
    · rw [div_le_one (by norm_num)]
      exact_mod_cast (by omega : Int.floor (x * 100) + 1 ≤ 100)

/-- **C4** (amended).  `_calculate_search_confidence` returns exactly 0 when
the total raw-hit count is 0; otherwise it returns the 2-decimal rounding
of the unweighted mean of the three normalized signals; and whenever the
unique-result count does not exceed the total raw-hit count — which holds
at every call site, the unique results being a deduplication of the raw
hits — the result lies in [0,1].  (Without that restriction the claimed
[0,1] bound is false, see the counterexample.) -/
theorem calculateSearchConfidence_spec (u t q : Nat) :
    (t = 0 → calculateSearchConfidence u t q = 0) ∧
    (t ≠ 0 → calculateSearchConfidence u t q =
      round2 ((min 1 ((u : ℚ) / 20) + min 1 ((q : ℚ) / 3) +
        max (1 / 2) ((u : ℚ) / ((max 1 t : Nat) : ℚ))) / 3)) ∧
    (u ≤ t → 0 ≤ calculateSearchConfidence u t q ∧
      calculateSearchConfidence u t q ≤ 1) := by
  refine ⟨?_, ?_, ?_⟩
  · intro h
    unfold calculateSearchConfidence
    rw [if_pos h]
  · intro h
    unfold calculateSearchConfidence
    rw [if_neg h]
  · intro hut
    unfold calculateSearchConfidence
    dsimp only
    split_ifs with h
    · exact ⟨le_refl 0, by norm_num⟩
    · have ht1 : 1 ≤ t := Nat.one_le_iff_ne_zero.mpr h
      have hmax : (max 1 t : Nat) = t := Nat.max_eq_right ht1
      have htq : (0 : ℚ) < (t : ℚ) := by exact_mod_cast Nat.pos_of_ne_zero h
      have h1l : (0 : ℚ) ≤ min 1 ((u : ℚ) / 20) := le_min (by norm_num) (by positivity)
      have h2l : (0 : ℚ) ≤ min 1 ((q : ℚ) / 3) := le_min (by norm_num) (by positivity)
      have h3l : (0 : ℚ) ≤ max (1 / 2) ((u : ℚ) / ((max 1 t : Nat) : ℚ)) :=
        le_trans (by norm_num) (le_max_left _ _)
      have h1u : min 1 ((u : ℚ) / 20) ≤ 1 := min_le_left _ _
      have h2u : min 1 ((q : ℚ) / 3) ≤ 1 := min_le_left _ _
      have h3u : max (1 / 2) ((u : ℚ) / ((max 1 t : Nat) : ℚ)) ≤ 1 := by
        refine max_le (by norm_num) ?_
        rw [hmax, div_le_one htq]
        exact_mod_cast hut
      exact round2_bounds _ (by linarith) (by linarith)

/-- **C4**, counterexample to the claim as stated: the claim quantifies
over all non-negative counts, but with 7 unique results against 1 raw hit
the duplication-penalty signal is 7 and the confidence is 2.45, outside
[0,1]. -/
theorem calculateSearchConfidence_claim_counterexample :
    1 < calculateSearchConfidence 7 1 0 := by decide

/-- **C4**, witness: the zero-total short-circuit and, at counts 7/14/3,
the [0,1] bound under the call-site restriction. -/
theorem calculateSearchConfidence_spec_witness :
    calculateSearchConfidence 5 0 9 = 0 ∧
    0 ≤ calculateSearchConfidence 7 14 3 ∧ calculateSearchConfidence 7 14 3 ≤ 1 :=
  ⟨(calculateSearchConfidence_spec 5 0 9).1 rfl,
   (calculateSearchConfidence_spec 7 14 3).2.2 (by decide)⟩

/-! ## Claim C5 -/

/-- **C5**.  The Impact Adjuster buckets patents with score strictly above
0.7 as high similarity (and [0.4, 0.7] as medium, ignored for the deltas
when the high bucket is non-empty); whenever high-similarity patents
exist, `novelty_reduction = min(0.4, 0.1 * count_high)` and
`obviousness_increase = min(0.3, 0.08 * count_high)`. -/
theorem analyzePriorArtImpact_high_deltas (patents : List PatentResult)
    (hhigh : highSimilarity patents ≠ []) :
    (analyzePriorArtImpact patents).novelty_reduction =
      min (4 / 10) (((highSimilarity patents).length : ℚ) * (1 / 10)) ∧
    (analyzePriorArtImpact patents).obviousness_increase =
      min (3 / 10) (((highSimilarity patents).length : ℚ) * (8 / 100)) := by
  have hne : patents ≠ [] := by
    intro he
    rw [he] at hhigh
    exact hhigh rfl
  unfold analyzePriorArtImpact
  rw [if_neg hne]
  dsimp only
  rw [if_pos hhigh, if_pos hhigh]
  exact ⟨rfl, rfl⟩

/-- **C5**, witness: the spec's scenario of four patents at similarity
0.9, 0.8, 0.75, 0.5 — three land in the high bucket, and the deltas are
min(0.4, 0.3) = 0.3 and min(0.3, 0.24) = 0.24. -/
theorem analyzePriorArtImpact_high_deltas_witness :
    (analyzePriorArtImpact scenarioPatents).novelty_reduction = 3 / 10 ∧
    (analyzePriorArtImpact scenarioPatents).obviousness_increase = 6 / 25 := by
  have h := analyzePriorArtImpact_high_deltas scenarioPatents (by decide)
  exact ⟨h.1.trans (by decide), h.2.trans (by decide)⟩

/-! ## Claim C6 -/

/-- **C6** (amended).  When the prior-art result contains at least one
patent, the generic substitutions of `analyze_prior_art_impact` apply: an
empty high bucket leaves no itemized risk factors and the returned list is
the single generic "limited conflicts" note, and empty high and medium
buckets leave no recommendations and the returned list is the single
generic "favorable landscape" note.  With zero patents, however, the early
return yields an *empty* risk-factor list (not the generic note) together
with the broaden-search recommendation. -/
theorem analyzePriorArtImpact_fallbacks (patents : List PatentResult) :
    (patents ≠ [] →
      (highSimilarity patents = [] →
        (analyzePriorArtImpact patents).risk_factors =
          ["Limited prior art conflicts identified"]) ∧
      (highSimilarity patents = [] → mediumSimilarity patents = [] →
        (analyzePriorArtImpact patents).recommendations =
          ["Patent landscape appears favorable for filing"])) ∧
    (patents = [] →
      (analyzePriorArtImpact patents).risk_factors = [] ∧
      (analyzePriorArtImpact patents).recommendations =
        ["Consider broader patent search before filing"]) := by
  constructor
  · intro hne
    unfold analyzePriorArtImpact
    rw [if_neg hne]
    dsimp only
    constructor
    · intro hh
      rw [hh]
      simp
    · intro hh hm
      rw [hh, hm]
      simp
  · intro he
    subst he
    exact ⟨rfl, rfl⟩

/-- **C6**, counterexample to the claim as stated: for the zero-patent
input the risk-factor list is empty, not the single generic "limited
conflicts" note the claim asserts for every input. -/
theorem analyzePriorArtImpact_claim_counterexample :
    (analyzePriorArtImpact []).risk_factors = [] ∧
    (analyzePriorArtImpact []).risk_factors ≠
      ["Limited prior art conflicts identified"] := by
  exact ⟨rfl, by decide⟩

/-- **C6**, witness: a single low-similarity patent (score 0.2) populates
neither bucket, so both generic substitutions fire. -/
theorem analyzePriorArtImpact_fallbacks_witness :
    (analyzePriorArtImpact [mkCandidate "US5" "" "" "" "" "" (2 / 10)]).risk_factors =
      ["Limited prior art conflicts identified"] ∧
    (analyzePriorArtImpact [mkCandidate "US5" "" "" "" "" "" (2 / 10)]).recommendations =
      ["Patent landscape appears favorable for filing"] := by
  have h := (analyzePriorArtImpact_fallbacks [mkCandidate "US5" "" "" "" "" "" (2 / 10)]).1
    (by decide)
  exact ⟨h.1 (by decide), h.2 (by decide) (by decide)⟩

/-! ## Claim C7 -/

/-- **C7**.  For every provider behaviour, query parameters and result
bound, when either credential is missing (unset or empty, both falsy in
the source) `_search_patents` returns the empty candidate list at once;
in the embedding the guard precedes the pagination loop, mirroring the
source where the guard precedes the `try` block and returns `[]` without
raising. -/
theorem searchPatents_missing_credentials (cfg : SearchConfig)
    (provider : Nat → PageReply) (maxResults : Nat)
    (h : credentialsMissing cfg = true) :
    searchPatents cfg provider maxResults = [] := by
  unfold searchPatents
  rw [if_pos h]

/-- **C7**, witness: an unset API key with a configured engine id yields
the empty result even against a provider that would fail loudly. -/
theorem searchPatents_missing_credentials_witness :
    searchPatents ⟨none, some "engine-id"⟩ (fun _ => ⟨500, none⟩) 20 = [] :=
  searchPatents_missing_credentials _ _ _ (by decide)

/-! ## Claim C9 -/

/-- **C9**.  The adjusted scores of `assess_with_prior_art` equal
`max(0, original - delta)` and are therefore never negative, for every
original score and every pair of impact deltas. -/
theorem adjustedScores_nonneg (novelty nonObviousness noveltyReduction
    obviousnessIncrease : ℚ) :
    adjustedNovelty novelty noveltyReduction = max 0 (novelty - noveltyReduction) ∧
    adjustedNonObviousness nonObviousness obviousnessIncrease =
      max 0 (nonObviousness - obviousnessIncrease) ∧
    0 ≤ adjustedNovelty novelty noveltyReduction ∧
    0 ≤ adjustedNonObviousness nonObviousness obviousnessIncrease :=
  ⟨rfl, rfl, le_max_left 0 _, le_max_left 0 _⟩

end PatentPlatform
